import Mathlib

/-!
Verification development for the Weight-of-Evidence categorical encoder
(`WeightofEvidenceEncoder.py`).

Shallow embedding conventions:
* A pandas `Series` keyed by category is an association list `List (α × β)`;
  lookup returns the first entry for a key, and key order is immaterial for
  every property proved here (lookups and sums over distinct keys).
* `NaN` is modelled by `Option`: `none` is NaN, `some q` a real value.
  All exact arithmetic is over `ℚ`.
* `np.log` is an abstract parameter `log : ℚ → ℚ`: the encoder only ever
  applies it to positive ratios of stored proportions, and every property
  proved about the encoder holds for an arbitrary choice of `log`.
* Python exceptions surface as values of `Err`.  The pandas `KeyError`
  raised by `__calc_perc` when a target class is missing is the spec's
  `DegenerateTargetError`; the `assert self.is_fitted` guard (an
  `AssertionError`) is the spec's `NotFittedError`.
* A `DataFrame` passed to `fit` is a total map `String → List α` from column
  name to column (column presence is assumed; pandas would raise `KeyError`
  on a missing feature column).  A `DataFrame` passed to `transform` is an
  association list of named columns, because `transform` adds and drops
  columns; its cells are either original category values or encoded
  (possibly-NaN) numbers.
-/

namespace WoE

variable {α : Type} [DecidableEq α]

/-- The error kinds of the specification.  `invalidDropConfiguration` is
declared so that statements about it can be made; whether any code path
produces it is settled by the theorems below. -/
inductive Err where
  | notFitted
  | degenerateTarget
  | keyError
  | invalidDropConfiguration
  deriving DecidableEq

/-- First-match lookup in an association list (a Python `dict` /
pandas index lookup). -/
def alLookup {β : Type} : List (α × β) → α → Option β
  | [], _ => none
  | p :: m, c => if p.1 = c then some p.2 else alLookup m c

/-- The rows of `x` paired with `y` whose target is 1 (events). -/
def eventRows (x : List α) (y : List Bool) : List α :=
  ((x.zip y).filter fun p => p.2).map Prod.fst

/-- The rows of `x` paired with `y` whose target is 0 (non-events). -/
def nonEventRows (x : List α) (y : List Bool) : List α :=
  ((x.zip y).filter fun p => !p.2).map Prod.fst

/-- `rows.value_counts() / n`: per distinct category, its count in `rows`
divided by `n`. -/
def propOf (rows : List α) (n : ℕ) : List (α × ℚ) :=
  rows.dedup.map fun c => (c, (rows.count c : ℚ) / (n : ℚ))

/-- `__calc_perc(x, y)`.  `n_event = y.value_counts()`; indexing
`...value_counts()[1]` (resp. `[0]`) raises a pandas `KeyError` when the
class is absent from `y`, which is the spec's `DegenerateTargetError`.
Otherwise `p_event` is the per-category share of event rows and
`p_non_event` the per-category share of non-event rows. -/
def calcPerc (x : List α) (y : List Bool) :
    Except Err (List (α × ℚ) × List (α × ℚ)) :=
  if y.count true = 0 ∨ y.count false = 0 then Except.error Err.degenerateTarget
  else Except.ok
    (propOf (eventRows x y) (y.count true),
     propOf (nonEventRows x y) (y.count false))

/-- Pandas index-aligned binary operation on two series: the result is keyed
by the union of the two key sets (order immaterial here, modelled
first-seen), and a key missing from either operand yields NaN. -/
def alignOp (f : ℚ → ℚ → ℚ) (s t : List (α × ℚ)) : List (α × Option ℚ) :=
  ((s.map Prod.fst ++ t.map Prod.fst).dedup).map fun c =>
    (c, match alLookup s c, alLookup t c with
        | some a, some b => some (f a b)
        | _, _ => none)

/-- Elementwise `np.log` on a series: NaN maps to NaN. -/
def optLog (log : ℚ → ℚ) (s : List (α × Option ℚ)) : List (α × Option ℚ) :=
  s.map fun p => (p.1, p.2.map log)

/-- `Series.fillna(v)`: replace every NaN entry by `v`. -/
def seriesFillna (v : ℚ) (s : List (α × Option ℚ)) : List (α × ℚ) :=
  s.map fun p => (p.1, p.2.getD v)

/-- Elementwise product of a (possibly-NaN) series with a total series
carrying the same keys: NaN propagates (`NaN * x = NaN`). -/
def mulAligned (s : List (α × Option ℚ)) (t : List (α × ℚ)) :
    List (α × Option ℚ) :=
  s.map fun p =>
    (p.1, match p.2, alLookup t p.1 with
          | some a, some b => some (a * b)
          | _, _ => none)

/-- The body of the `fit` loop for one feature (lines 69–77 of the source):
`woe = np.log(p_non_event / p_event); woe.fillna(0)`;
`information_value = (p_non_event - p_event) * woe`, filled with the
configured `fillna` when one is set.  Returns the stored WoE dict and the
stored IV series. -/
def fitFeature (log : ℚ → ℚ) (fillna : Option ℚ)
    (p_event p_non_event : List (α × ℚ)) :
    List (α × ℚ) × List (α × Option ℚ) :=
  let woeRaw := optLog log (alignOp (fun a b => a / b) p_non_event p_event)
  let woe := seriesFillna 0 woeRaw
  let ivRaw := mulAligned (alignOp (fun a b => a - b) p_non_event p_event) woe
  let iv := match fillna with
    | some v => (seriesFillna v ivRaw).map fun p => (p.1, some p.2)
    | none => ivRaw
  (woe, iv)

/-- The encoder object.  `pfx` and `sfx` model the constructor arguments
named `pre`+`fix` and `suffix` in the source (the former cannot be used as a
Lean name here); `woeTbl`/`ivTbl` are `transform_dict["woe"]` and
`transform_dict["iv"]`. -/
structure Encoder (α : Type) where
  feats : List String
  drop_original : Bool
  fillna : Option ℚ
  pfx : String
  sfx : String
  woeTbl : List (String × List (α × ℚ))
  ivTbl : List (String × List (α × Option ℚ))
  is_fitted : Bool

/-- `__init__`: a freshly constructed encoder with empty tables and
`is_fitted = False`. -/
def init (feats : List String) (drop_original : Bool) (fillna : Option ℚ)
    (pfx : String) (sfx : String) : Encoder α :=
  { feats := feats, drop_original := drop_original, fillna := fillna,
    pfx := pfx, sfx := sfx, woeTbl := [], ivTbl := [], is_fitted := false }

/-- The `for feat in self.feats` loop of `fit`.  A raised exception stops
the loop and leaves the encoder as mutated so far (in particular
`is_fitted` is only set after the whole loop completes); dict assignment is
modelled by consing, which shadows any earlier entry under `alLookup`. -/
def fitGo (log : ℚ → ℚ) (X : String → List α) (y : List Bool) :
    List String → Encoder α → Encoder α × Option Err
  | [], acc => ({ acc with is_fitted := true }, none)
  | f :: fs, acc =>
    match calcPerc (X f) y with
    | Except.error err => (acc, some err)
    | Except.ok pp =>
      let r := fitFeature log acc.fillna pp.1 pp.2
      fitGo log X y fs
        { acc with woeTbl := (f, r.1) :: acc.woeTbl,
                   ivTbl := (f, r.2) :: acc.ivTbl }

/-- `fit(X, y)`: returns the encoder state after the call together with the
exception raised, if any. -/
def fit (log : ℚ → ℚ) (e : Encoder α) (X : String → List α) (y : List Bool) :
    Encoder α × Option Err :=
  fitGo log X y e.feats e

/-- A cell of a transform-side data frame: an original categorical value or
an encoded (possibly-NaN) number. -/
inductive Cell (α : Type) where
  | cat : α → Cell α
  | num : Option ℚ → Cell α
  deriving DecidableEq

/-- A transform-side data frame: named columns, in order. -/
abbrev Frame (α : Type) := List (String × List (Cell α))

/-- `X[c]`: column lookup. -/
def frameGet (X : Frame α) (c : String) : Option (List (Cell α)) :=
  alLookup X c

/-- `X[c] = col`: pandas column assignment replaces an existing column in
place and otherwise appends a new column at the end. -/
def frameSet (X : Frame α) (c : String) (col : List (Cell α)) : Frame α :=
  if c ∈ X.map Prod.fst then X.map fun p => if p.1 = c then (c, col) else p
  else X ++ [(c, col)]

/-- `X.drop([c], axis=1)`. -/
def frameDrop (X : Frame α) (c : String) : Frame α :=
  X.filter fun p => p.1 ≠ c

/-- One cell under `Series.map` with a dict argument: a category is looked
up in the dict and an absent key yields NaN; a numeric cell is never a key
of the category-keyed dict, so it also yields NaN. -/
def mapCell (m : List (α × ℚ)) : Cell α → Cell α
  | Cell.cat v => Cell.num (alLookup m v)
  | Cell.num _ => Cell.num none

/-- `Series.map(dict, na_action=...)`.  The source passes the constructor's
`fillna` (a number or `None`) as `na_action`; pandas only changes behaviour
when `na_action` equals the string `"ignore"`, which a numeric fill value
never does — and for a dict argument even `"ignore"` would give the same
result, since a NaN input misses the dict either way.  So the lookup is
applied to every cell and `naAction` cannot influence the result. -/
def seriesMap (m : List (α × ℚ)) (naAction : Option ℚ)
    (col : List (Cell α)) : List (Cell α) :=
  col.map (mapCell m)

/-- The `for feat in self.feats` loop of `transofrm` (the source's spelling):
build the new column name, map the feature column through the fitted WoE
dict, assign it, and drop the original only when `drop_original` is set and
`prefix + suffix` is non-empty.  A missing feature column or a missing
fitted dict entry is a pandas/dict `KeyError`. -/
def transformLoop (e : Encoder α) : List String → Frame α → Except Err (Frame α)
  | [], X => Except.ok X
  | f :: fs, X =>
    match frameGet X f, alLookup e.woeTbl f with
    | some col, some m =>
      let newName := e.pfx ++ f ++ e.sfx
      let X1 := frameSet X newName (seriesMap m e.fillna col)
      let X2 := if e.drop_original = true ∧ e.pfx ++ e.sfx ≠ "" then
          frameDrop X1 f
        else X1
      transformLoop e fs X2
    | _, _ => Except.error Err.keyError

/-- `transofrm(X)` (the source's spelling): `assert self.is_fitted` raises
the spec's `NotFittedError` on an unfitted encoder, otherwise the per
feature loop runs. -/
def transofrm (e : Encoder α) (X : Frame α) : Except Err (Frame α) :=
  if e.is_fitted then transformLoop e e.feats X else Except.error Err.notFitted

/-- The `predictive_power` band table of `__add_description`; an upper
bound `none` models `np.inf`. -/
def predictive_power : List ((ℚ × Option ℚ) × String) :=
  [((0, some 0.02), "Not useful for prediction"),
   ((0.02, some 0.1), "Weak predictive power"),
   ((0.1, some 0.3), "Medium predictive power"),
   ((0.3, some 0.5), "Strong predictive power"),
   ((0.5, none), "Too good to be true!")]

/-- `bounds[0] <= information_value < bounds[1]`; a finite value is always
strictly below `np.inf`. -/
def inBand (iv : ℚ) : ℚ × Option ℚ → Bool
  | (lo, some hi) => decide (lo ≤ iv) && decide (iv < hi)
  | (lo, none) => decide (lo ≤ iv)

/-- The band-scanning loop of `__add_description`: first match wins, and
falling off the end returns the fallback label. -/
def addDescriptionGo (iv : ℚ) : List ((ℚ × Option ℚ) × String) → String
  | [] => "Too good to be true!"
  | b :: rest => if inBand iv b.1 then b.2 else addDescriptionGo iv rest

/-- `__add_description(information_value)`. -/
def addDescription (iv : ℚ) : String :=
  addDescriptionGo iv predictive_power

/-- `Series.sum()` with the pandas default `skipna=True`: NaN entries
contribute nothing, and an all-NaN or empty series sums to 0. -/
def nanSum (s : List (α × Option ℚ)) : ℚ :=
  (s.map fun p => p.2.getD 0).sum

/-- The `for feat in self.feats` loop of `information_values`: one
`(feature, Series.sum of its stored IV series)` row per configured feature;
a feature missing from the fitted table is a dict `KeyError`. -/
def ivRows (e : Encoder α) : List String → Except Err (List (String × ℚ))
  | [] => Except.ok []
  | f :: fs =>
    match alLookup e.ivTbl f with
    | none => Except.error Err.keyError
    | some s =>
      match ivRows e fs with
      | Except.error err => Except.error err
      | Except.ok rest => Except.ok ((f, nanSum s) :: rest)

/-- `information_values(add_description)`: the unfitted guard, then the IV
rows, then optionally the description column computed from each row's IV
scalar. -/
def information_values (e : Encoder α) (add_description : Bool) :
    Except Err (List (String × ℚ × Option String)) :=
  if e.is_fitted then
    match ivRows e e.feats with
    | Except.error err => Except.error err
    | Except.ok rows =>
      Except.ok (rows.map fun p =>
        (p.1, p.2, if add_description then some (addDescription p.2) else none))
  else Except.error Err.notFitted

/-- Lookup of one category's stored value in a per-feature table. -/
def tblLookup {β : Type} (tbl : List (String × List (α × β))) (f : String)
    (c : α) : Option β :=
  match alLookup tbl f with
  | none => none
  | some m => alLookup m c

/-! ### Association list lemmas -/

theorem alLookup_nil {β : Type} (c : α) : alLookup ([] : List (α × β)) c = none :=
  rfl

theorem alLookup_cons {β : Type} (k : α) (v : β) (m : List (α × β)) (c : α) :
    alLookup ((k, v) :: m) c = if k = c then some v else alLookup m c :=
  rfl

theorem alLookup_map_val {β γ : Type} (g : α → β → γ) (m : List (α × β)) (c : α) :
    alLookup (m.map fun p => (p.1, g p.1 p.2)) c = (alLookup m c).map (g c) := by
  induction m with
  | nil => rfl
  | cons p m ih =>
    simp only [List.map_cons, alLookup]
    by_cases h : p.1 = c
    · subst h; simp
    · simp [h, ih]

theorem alLookup_map_keys {β : Type} (g : α → β) (ks : List α) (c : α) :
    alLookup (ks.map fun k => (k, g k)) c
      = if c ∈ ks then some (g c) else none := by
  induction ks with
  | nil => simp [alLookup]
  | cons k ks ih =>
    simp only [List.map_cons, alLookup]
    by_cases h : k = c
    · subst h; simp
    · have h2 : ¬c = k := fun hh => h hh.symm
      simp [h, h2, ih, List.mem_cons]

theorem mem_keys_of_alLookup {β : Type} {m : List (α × β)} {c : α} {b : β}
    (h : alLookup m c = some b) : c ∈ m.map Prod.fst := by
  induction m with
  | nil => simp [alLookup] at h
  | cons p m ih =>
    simp only [alLookup] at h
    by_cases hp : p.1 = c
    · simp [List.map_cons, hp.symm]
    · simp only [hp, if_false] at h
      simp [List.map_cons, ih h]

theorem alLookup_isSome_of_mem_keys {β : Type} {m : List (α × β)} {c : α}
    (h : c ∈ m.map Prod.fst) : (alLookup m c).isSome = true := by
  induction m with
  | nil => simp at h
  | cons p m ih =>
    simp only [List.map_cons, List.mem_cons] at h
    by_cases hp : p.1 = c
    · simp [alLookup, hp]
    · rcases h with h | h
      · exact absurd h.symm hp
      · simp [alLookup, hp, ih h]

/-! ### Lookup behaviour of the per-feature fitting pipeline -/

theorem alignOp_lookup_both (f : ℚ → ℚ → ℚ) (s t : List (α × ℚ)) (c : α)
    (a b : ℚ) (hs : alLookup s c = some a) (ht : alLookup t c = some b) :
    alLookup (alignOp f s t) c = some (some (f a b)) := by
  unfold alignOp
  rw [alLookup_map_keys]
  have hc : c ∈ (s.map Prod.fst ++ t.map Prod.fst).dedup := by
    rw [List.mem_dedup, List.mem_append]
    exact Or.inl (mem_keys_of_alLookup hs)
  rw [if_pos hc, hs, ht]

theorem alignOp_lookup_left (f : ℚ → ℚ → ℚ) (s t : List (α × ℚ)) (c : α)
    (a : ℚ) (hs : alLookup s c = some a) (ht : alLookup t c = none) :
    alLookup (alignOp f s t) c = some none := by
  unfold alignOp
  rw [alLookup_map_keys]
  have hc : c ∈ (s.map Prod.fst ++ t.map Prod.fst).dedup := by
    rw [List.mem_dedup, List.mem_append]
    exact Or.inl (mem_keys_of_alLookup hs)
  rw [if_pos hc, hs, ht]

theorem alignOp_lookup_right (f : ℚ → ℚ → ℚ) (s t : List (α × ℚ)) (c : α)
    (b : ℚ) (hs : alLookup s c = none) (ht : alLookup t c = some b) :
    alLookup (alignOp f s t) c = some none := by
  unfold alignOp
  rw [alLookup_map_keys]
  have hc : c ∈ (s.map Prod.fst ++ t.map Prod.fst).dedup := by
    rw [List.mem_dedup, List.mem_append]
    exact Or.inr (mem_keys_of_alLookup ht)
  rw [if_pos hc, hs, ht]

theorem optLog_lookup (log : ℚ → ℚ) (s : List (α × Option ℚ)) (c : α) :
    alLookup (optLog log s) c = (alLookup s c).map (Option.map log) := by
  unfold optLog
  exact alLookup_map_val (fun _ o => o.map log) s c

theorem seriesFillna_lookup (v : ℚ) (s : List (α × Option ℚ)) (c : α) :
    alLookup (seriesFillna v s) c = (alLookup s c).map (fun o => o.getD v) := by
  unfold seriesFillna
  exact alLookup_map_val (fun _ o => o.getD v) s c

theorem mulAligned_lookup (s : List (α × Option ℚ)) (t : List (α × ℚ)) (c : α) :
    alLookup (mulAligned s t) c
      = (alLookup s c).map (fun o =>
          match o, alLookup t c with
          | some a, some b => some (a * b)
          | _, _ => none) := by
  unfold mulAligned
  exact alLookup_map_val
    (fun k o => match o, alLookup t k with
                | some a, some b => some (a * b)
                | _, _ => none) s c

/-- Stored WoE for a category present in both proportion mappings. -/
theorem fitFeature_woe_both (log : ℚ → ℚ) (fillna : Option ℚ)
    (pe pne : List (α × ℚ)) (c : α) (a b : ℚ)
    (hne : alLookup pne c = some a) (he : alLookup pe c = some b) :
    alLookup (fitFeature log fillna pe pne).1 c = some (log (a / b)) := by
  simp only [fitFeature, seriesFillna_lookup, optLog_lookup,
    alignOp_lookup_both (fun a b => a / b) pne pe c a b hne he, Option.map_some]
  rfl

/-- Stored WoE for a category present in only one of the two proportion
mappings: the aligned ratio is NaN, `np.log` keeps it NaN, and
`woe.fillna(0)` stores 0. -/
theorem fitFeature_woe_single (log : ℚ → ℚ) (fillna : Option ℚ)
    (pe pne : List (α × ℚ)) (c : α)
    (h : ((alLookup pne c).isSome ∧ alLookup pe c = none) ∨
         (alLookup pne c = none ∧ (alLookup pe c).isSome)) :
    alLookup (fitFeature log fillna pe pne).1 c = some 0 := by
  rcases h with ⟨h1, h2⟩ | ⟨h1, h2⟩
  · obtain ⟨a, ha⟩ := Option.isSome_iff_exists.mp h1
    simp only [fitFeature, seriesFillna_lookup, optLog_lookup,
      alignOp_lookup_left (fun a b => a / b) pne pe c a ha h2, Option.map_some]
    rfl
  · obtain ⟨b, hb⟩ := Option.isSome_iff_exists.mp h2
    simp only [fitFeature, seriesFillna_lookup, optLog_lookup,
      alignOp_lookup_right (fun a b => a / b) pne pe c b h1 hb, Option.map_some]
    rfl

/-- Stored IV contribution for a category present in both mappings, for any
fill configuration. -/
theorem fitFeature_iv_both (log : ℚ → ℚ) (fillna : Option ℚ)
    (pe pne : List (α × ℚ)) (c : α) (a b : ℚ)
    (hne : alLookup pne c = some a) (he : alLookup pe c = some b) :
    alLookup (fitFeature log fillna pe pne).2 c
      = some (some ((a - b) * log (a / b))) := by
  have hwoe := fitFeature_woe_both log fillna pe pne c a b hne he
  simp only [fitFeature] at hwoe ⊢
  cases fillna with
  | none =>
    rw [mulAligned_lookup,
      alignOp_lookup_both (fun a b => a - b) pne pe c a b hne he, hwoe]
    rfl
  | some v =>
    rw [alLookup_map_val (fun _ q => some q), seriesFillna_lookup,
      mulAligned_lookup, alignOp_lookup_both (fun a b => a - b) pne pe c a b hne he,
      hwoe]
    rfl

/-- Stored IV contribution for a category present in only one mapping, when
a fill value is configured: the NaN contribution is replaced by the fill
value before storing. -/
theorem fitFeature_iv_single_fill (log : ℚ → ℚ) (v : ℚ)
    (pe pne : List (α × ℚ)) (c : α)
    (h : ((alLookup pne c).isSome ∧ alLookup pe c = none) ∨
         (alLookup pne c = none ∧ (alLookup pe c).isSome)) :
    alLookup (fitFeature log (some v) pe pne).2 c = some (some v) := by
  have hsub : alLookup (alignOp (fun a b => a - b) pne pe) c = some none := by
    rcases h with ⟨h1, h2⟩ | ⟨h1, h2⟩
    · obtain ⟨a, ha⟩ := Option.isSome_iff_exists.mp h1
      exact alignOp_lookup_left (fun a b => a - b) pne pe c a ha h2
    · obtain ⟨b, hb⟩ := Option.isSome_iff_exists.mp h2
      exact alignOp_lookup_right (fun a b => a - b) pne pe c b h1 hb
  simp only [fitFeature]
  rw [alLookup_map_val (fun _ q => some q), seriesFillna_lookup,
    mulAligned_lookup, hsub]
  rfl

/-! ### Behaviour of the fit loop -/

theorem fitGo_ok_fields (log : ℚ → ℚ) (X : String → List α) (y : List Bool)
    (fs : List String) (acc e2 : Encoder α)
    (h : fitGo log X y fs acc = (e2, none)) :
    e2.feats = acc.feats ∧ e2.drop_original = acc.drop_original ∧
    e2.fillna = acc.fillna ∧ e2.pfx = acc.pfx ∧ e2.sfx = acc.sfx ∧
    e2.is_fitted = true := by
  induction fs generalizing acc with
  | nil =>
    simp only [fitGo, Prod.mk.injEq] at h
    rw [← h.1]
    exact ⟨rfl, rfl, rfl, rfl, rfl, rfl⟩
  | cons f fs ih =>
    simp only [fitGo] at h
    cases hcp : calcPerc (X f) y with
    | error err => rw [hcp] at h; simp at h
    | ok pp =>
      simp only [hcp] at h
      have h2 := ih _ h
      exact h2

theorem fitGo_lookup_notmem (log : ℚ → ℚ) (X : String → List α) (y : List Bool)
    (fs : List String) (acc e2 : Encoder α) (f : String)
    (hmem : f ∉ fs) (h : fitGo log X y fs acc = (e2, none)) :
    alLookup e2.woeTbl f = alLookup acc.woeTbl f ∧
    alLookup e2.ivTbl f = alLookup acc.ivTbl f := by
  induction fs generalizing acc with
  | nil =>
    simp only [fitGo, Prod.mk.injEq] at h
    rw [← h.1]
    exact ⟨rfl, rfl⟩
  | cons g fs ih =>
    have hg : ¬g = f := fun hh => hmem (by simp [hh])
    have hfs : f ∉ fs := fun hh => hmem (by simp [hh])
    simp only [fitGo] at h
    cases hcp : calcPerc (X g) y with
    | error err => rw [hcp] at h; simp at h
    | ok pp =>
      simp only [hcp] at h
      have := ih _ hfs h
      rw [this.1, this.2]
      constructor
      · exact (alLookup_cons g _ acc.woeTbl f).trans (if_neg hg)
      · exact (alLookup_cons g _ acc.ivTbl f).trans (if_neg hg)

theorem fitGo_lookup_mem (log : ℚ → ℚ) (X : String → List α) (y : List Bool)
    (fs : List String) (acc e2 : Encoder α) (f : String)
    (hmem : f ∈ fs) (h : fitGo log X y fs acc = (e2, none)) :
    ∃ pe pne, calcPerc (X f) y = Except.ok (pe, pne) ∧
      alLookup e2.woeTbl f = some (fitFeature log acc.fillna pe pne).1 ∧
      alLookup e2.ivTbl f = some (fitFeature log acc.fillna pe pne).2 := by
  induction fs generalizing acc with
  | nil => simp at hmem
  | cons g fs ih =>
    simp only [fitGo] at h
    cases hcp : calcPerc (X g) y with
    | error err => rw [hcp] at h; simp at h
    | ok pp =>
      simp only [hcp] at h
      by_cases hf : f ∈ fs
      · have h2 := ih _ hf h
        exact h2
      · have hfg : f = g := by
          rcases List.mem_cons.mp hmem with h1 | h1
          · exact h1
          · exact absurd h1 hf
        subst hfg
        have hnm := fitGo_lookup_notmem log X y fs _ e2 f hf h
        refine ⟨pp.1, pp.2, ?_, ?_, ?_⟩
        · rw [hcp]
        · rw [hnm.1, alLookup_cons, if_pos rfl]
        · rw [hnm.2, alLookup_cons, if_pos rfl]

/-! ### Claim C1 -/

/-- C1: for every feature fitted by `fit(X, y)` and every category present
in both proportion mappings, the stored WoE equals the logarithm of
`p_non_event / p_event`, and the stored IV contribution equals
`(p_non_event - p_event)` multiplied by the stored (post-fill) WoE; when a
fill value is configured, undefined IV contributions are replaced by that
value before storing. -/
theorem c1_fit_stores_woe_iv (log : ℚ → ℚ) (e e2 : Encoder α)
    (X : String → List α) (y : List Bool) (f : String)
    (pe pne : List (α × ℚ))
    (hfit : fit log e X y = (e2, none)) (hf : f ∈ e.feats)
    (hcp : calcPerc (X f) y = Except.ok (pe, pne)) :
    (∀ c a b, alLookup pne c = some a → alLookup pe c = some b →
      ∃ w, tblLookup e2.woeTbl f c = some w ∧ w = log (a / b) ∧
        tblLookup e2.ivTbl f c = some (some ((a - b) * w))) ∧
    (∀ v c, e.fillna = some v →
      ((alLookup pne c).isSome ∧ alLookup pe c = none) ∨
        (alLookup pne c = none ∧ (alLookup pe c).isSome) →
      tblLookup e2.ivTbl f c = some (some v)) := by
  obtain ⟨pe2, pne2, hcp2, hw, hi⟩ :=
    fitGo_lookup_mem log X y e.feats e e2 f hf hfit
  rw [hcp] at hcp2
  injection hcp2 with h3
  have hpe : pe = pe2 := congrArg Prod.fst h3
  have hpne : pne = pne2 := congrArg Prod.snd h3
  subst hpe; subst hpne
  constructor
  · intro c a b hne he
    refine ⟨log (a / b), ?_, rfl, ?_⟩
    · simp only [tblLookup, hw]
      exact fitFeature_woe_both log e.fillna pe pne c a b hne he
    · simp only [tblLookup, hi]
      exact fitFeature_iv_both log e.fillna pe pne c a b hne he
  · intro v c hv hone
    rw [hv] at hi
    simp only [tblLookup, hi]
    exact fitFeature_iv_single_fill log v pe pne c hone

/-- The worked end-to-end example of the specification (`city` feature,
`y = [1,1,0,0,0]`, `city = [A,A,A,B,B]`), fitted with the identity function
standing in for `np.log` and fill value 0. -/
def exampleFit : Encoder String × Option Err :=
  fit (fun q => q) (init ["city"] false (some 0) "woe_" "")
    (fun _ => ["A", "A", "A", "B", "B"]) [true, true, false, false, false]

theorem c1_fit_stores_woe_iv_witness :
    tblLookup exampleFit.1.woeTbl "city" "A" = some (1/3 : ℚ) ∧
    tblLookup exampleFit.1.ivTbl "city" "A" = some (some (-(2/9) : ℚ)) ∧
    tblLookup exampleFit.1.ivTbl "city" "B" = some (some 0) := by
  have h := c1_fit_stores_woe_iv (fun q => q)
    (init ["city"] false (some 0) "woe_" "") exampleFit.1
    (fun _ => ["A", "A", "A", "B", "B"]) [true, true, false, false, false]
    "city" (propOf ["A", "A"] 2) (propOf ["A", "B", "B"] 3) rfl
    (List.mem_singleton.mpr rfl) rfl
  obtain ⟨w, hw1, hw2, hiv⟩ :=
    h.1 "A" (((1 : ℕ) : ℚ) / ((3 : ℕ) : ℚ)) (((2 : ℕ) : ℚ) / ((2 : ℕ) : ℚ)) rfl rfl
  subst hw2
  refine ⟨?_, ?_, h.2 0 "B" rfl (Or.inl ⟨rfl, rfl⟩)⟩
  · rw [hw1]; norm_num
  · rw [hiv]; norm_num

/-! ### Claim C2 -/

/-- C2: every category that appears in only one class's proportion mapping
(among event rows but not non-event rows, or vice versa) is stored in the
fitted WoE table with WoE equal to 0. -/
theorem c2_degenerate_woe_fill (log : ℚ → ℚ) (e e2 : Encoder α)
    (X : String → List α) (y : List Bool) (f : String)
    (pe pne : List (α × ℚ))
    (hfit : fit log e X y = (e2, none)) (hf : f ∈ e.feats)
    (hcp : calcPerc (X f) y = Except.ok (pe, pne)) :
    ∀ c, ((alLookup pne c).isSome ∧ alLookup pe c = none) ∨
        (alLookup pne c = none ∧ (alLookup pe c).isSome) →
      tblLookup e2.woeTbl f c = some 0 := by
  obtain ⟨pe2, pne2, hcp2, hw, _⟩ :=
    fitGo_lookup_mem log X y e.feats e e2 f hf hfit
  rw [hcp] at hcp2
  injection hcp2 with h3
  have hpe : pe = pe2 := congrArg Prod.fst h3
  have hpne : pne = pne2 := congrArg Prod.snd h3
  subst hpe; subst hpne
  intro c hone
  simp only [tblLookup, hw]
  exact fitFeature_woe_single log e.fillna pe pne c hone

theorem c2_degenerate_woe_fill_witness :
    tblLookup exampleFit.1.woeTbl "city" "B" = some 0 :=
  c2_degenerate_woe_fill (fun q => q)
    (init ["city"] false (some 0) "woe_" "") exampleFit.1
    (fun _ => ["A", "A", "A", "B", "B"]) [true, true, false, false, false]
    "city" (propOf ["A", "A"] 2) (propOf ["A", "B", "B"] 3) rfl
    (List.mem_singleton.mpr rfl) rfl
    "B" (Or.inl ⟨rfl, rfl⟩)

/-! ### Claim C3 -/

theorem ivRows_ok (e : Encoder α) (fs : List String)
    (h : ∀ g ∈ fs, (alLookup e.ivTbl g).isSome = true) :
    ∃ rows, ivRows e fs = Except.ok rows ∧
      ∀ f s, f ∈ fs → alLookup e.ivTbl f = some s →
        alLookup rows f = some (nanSum s) := by
  induction fs with
  | nil => exact ⟨[], rfl, by simp⟩
  | cons g fs ih =>
    have hg := h g (List.mem_cons_self g fs)
    obtain ⟨t, ht⟩ := Option.isSome_iff_exists.mp hg
    obtain ⟨rest, hrest, hlook⟩ :=
      ih (fun g2 hg2 => h g2 (List.mem_cons_of_mem g hg2))
    refine ⟨(g, nanSum t) :: rest, ?_, ?_⟩
    · simp only [ivRows, ht, hrest]
    · intro f s hf hs
      rcases eq_or_ne f g with hfg | hfg
      · subst hfg
        rw [ht] at hs
        injection hs with hs2
        subst hs2
        rw [alLookup_cons, if_pos rfl]
      · rw [alLookup_cons, if_neg (Ne.symm hfg)]
        rcases List.mem_cons.mp hf with h1 | h1
        · exact absurd h1 hfg
        · exact hlook f s h1 hs

/-- C3: for every fitted encoder and configured feature `f`, the
Information Value entry for `f` returned by `information_values` is the
`Series.sum` of the per-category IV contributions stored for `f` during
fit (NaN contributions — possible exactly when no fill value was supplied —
are skipped by the pandas sum). -/
theorem c3_iv_aggregation (log : ℚ → ℚ) (e e2 : Encoder α)
    (X : String → List α) (y : List Bool) (d : Bool) (f : String)
    (s : List (α × Option ℚ))
    (hfit : fit log e X y = (e2, none)) (hf : f ∈ e.feats)
    (hs : alLookup e2.ivTbl f = some s) :
    ∃ rows, information_values e2 d = Except.ok rows ∧
      alLookup rows f
        = some (nanSum s,
            if d then some (addDescription (nanSum s)) else none) := by
  have hfields := fitGo_ok_fields log X y e.feats e e2 hfit
  have hkeys : ∀ g ∈ e2.feats, (alLookup e2.ivTbl g).isSome = true := by
    intro g hg
    rw [hfields.1] at hg
    obtain ⟨pe, pne, _, _, hi⟩ := fitGo_lookup_mem log X y e.feats e e2 g hg hfit
    rw [hi]; rfl
  obtain ⟨rows, hrows, hlook⟩ := ivRows_ok e2 e2.feats hkeys
  have hf2 : f ∈ e2.feats := by rw [hfields.1]; exact hf
  refine ⟨rows.map fun p =>
    (p.1, p.2, if d then some (addDescription p.2) else none), ?_, ?_⟩
  · simp only [information_values, hfields.2.2.2.2.2, if_true, hrows]
  · rw [alLookup_map_val
      (fun _ q => (q, if d then some (addDescription q) else none)) rows f,
      hlook f s hf2 hs]
    rfl

theorem c3_iv_aggregation_witness :
    ∃ (s : List (String × Option ℚ)) (rows : List (String × ℚ × Option String)),
      alLookup exampleFit.1.ivTbl "city" = some s ∧
      information_values exampleFit.1 true = Except.ok rows ∧
      alLookup rows "city" = some (nanSum s, some (addDescription (nanSum s))) := by
  obtain ⟨rows, h1, h2⟩ := c3_iv_aggregation (fun q => q)
    (init ["city"] false (some 0) "woe_" "") exampleFit.1
    (fun _ => ["A", "A", "A", "B", "B"]) [true, true, false, false, false]
    true "city"
    ((fitFeature (fun q => q) (some 0) (propOf ["A", "A"] 2)
      (propOf ["A", "B", "B"] 3)).2)
    rfl (List.mem_singleton.mpr rfl) rfl
  exact ⟨_, rows, rfl, h1, h2⟩

/-! ### Claim C4 -/

theorem transformLoop_error_kind (e : Encoder α) (fs : List String)
    (F : Frame α) (err : Err)
    (h : transformLoop e fs F = Except.error err) : err = Err.keyError := by
  induction fs generalizing F with
  | nil => simp [transformLoop] at h
  | cons f fs ih =>
    simp only [transformLoop] at h
    cases hc : frameGet F f with
    | none =>
      rw [hc] at h
      injection h with h2
      exact h2.symm
    | some col =>
      cases hm : alLookup e.woeTbl f with
      | none =>
        rw [hc, hm] at h
        injection h with h2
        exact h2.symm
      | some m =>
        rw [hc, hm] at h
        exact ih _ h

theorem ivRows_error_kind (e : Encoder α) (fs : List String) (err : Err)
    (h : ivRows e fs = Except.error err) : err = Err.keyError := by
  induction fs with
  | nil => simp [ivRows] at h
  | cons f fs ih =>
    simp only [ivRows] at h
    cases hm : alLookup e.ivTbl f with
    | none =>
      rw [hm] at h
      injection h with h2
      exact h2.symm
    | some s =>
      rw [hm] at h
      cases hr : ivRows e fs with
      | error err2 =>
        rw [hr] at h
        injection h with h2
        exact ih (by rw [hr, h2])
      | ok rest => rw [hr] at h; simp at h

/-- C4: on a freshly constructed encoder both `transform` and
`information_values` fail with the not-fitted error; after a successful
`fit` neither call can fail with that error. -/
theorem c4_unfitted_guard (log : ℚ → ℚ) (feats : List String) (dr : Bool)
    (fn : Option ℚ) (px sx : String) (e e2 : Encoder α)
    (X : String → List α) (y : List Bool) (F F2 : Frame α) (d d2 : Bool)
    (hfit : fit log e X y = (e2, none)) :
    transofrm (init feats dr fn px sx : Encoder α) F
      = Except.error Err.notFitted ∧
    information_values (init feats dr fn px sx : Encoder α) d
      = Except.error Err.notFitted ∧
    transofrm e2 F2 ≠ Except.error Err.notFitted ∧
    information_values e2 d2 ≠ Except.error Err.notFitted := by
  have hfit2 : e2.is_fitted = true :=
    (fitGo_ok_fields log X y e.feats e e2 hfit).2.2.2.2.2
  refine ⟨rfl, rfl, ?_, ?_⟩
  · intro hcon
    unfold transofrm at hcon
    rw [hfit2, if_pos rfl] at hcon
    have := transformLoop_error_kind e2 e2.feats F2 Err.notFitted hcon
    exact absurd this (by decide)
  · intro hcon
    unfold information_values at hcon
    rw [hfit2, if_pos rfl] at hcon
    cases hr : ivRows e2 e2.feats with
    | error err2 =>
      rw [hr] at hcon
      injection hcon with h2
      have h3 := ivRows_error_kind e2 e2.feats err2 hr
      rw [h2] at h3
      exact absurd h3 (by decide)
    | ok rows => rw [hr] at hcon; simp at hcon

theorem c4_unfitted_guard_witness :
    transofrm (init ["city"] false (some 0) "woe_" "" : Encoder String) []
      = Except.error Err.notFitted ∧
    information_values (init ["city"] false (some 0) "woe_" "" : Encoder String)
      true = Except.error Err.notFitted ∧
    transofrm exampleFit.1 [("city", [Cell.cat "A"])]
      ≠ Except.error Err.notFitted ∧
    information_values exampleFit.1 true ≠ Except.error Err.notFitted :=
  c4_unfitted_guard (fun q => q) ["city"] false (some 0) "woe_" ""
    (init ["city"] false (some 0) "woe_" "") exampleFit.1
    (fun _ => ["A", "A", "A", "B", "B"]) [true, true, false, false, false]
    [] [("city", [Cell.cat "A"])] true true rfl

/-! ### Claim C5 -/

/-- C5 counterexample: an encoder configured with an empty feature list and
a target containing only the non-event class.  The target is degenerate
(`count true = 0`), yet `fit` raises nothing — the per-feature loop body
never runs — and the encoder is even marked fitted.  So `fit` does not
raise the degenerate-target error for every degenerate input. -/
theorem c5_counterexample :
    fit (fun q => q)
      (init ([] : List String) false none "woe_" "" : Encoder String)
      (fun _ => []) [false, false]
      = ({ feats := [], drop_original := false, fillna := none, pfx := "woe_",
           sfx := "", woeTbl := [], ivTbl := [], is_fitted := true }, none) ∧
    ([false, false] : List Bool).count true = 0 :=
  ⟨rfl, rfl⟩

/-- C5 (amended): for every encoder with at least one configured feature,
`fit` on a target missing one of the two classes raises the
degenerate-target error and returns the encoder exactly as it was, so no
partial model exists; in particular a previously unfitted encoder still
fails the fitted guard in `transform` and `information_values`. -/
theorem c5_degenerate_target (log : ℚ → ℚ) (e : Encoder α)
    (X : String → List α) (y : List Bool) (f0 : String) (fs0 : List String)
    (F : Frame α) (d : Bool)
    (hfeats : e.feats = f0 :: fs0)
    (hdeg : y.count true = 0 ∨ y.count false = 0) :
    fit log e X y = (e, some Err.degenerateTarget) ∧
    (e.is_fitted = false →
      transofrm e F = Except.error Err.notFitted ∧
      information_values e d = Except.error Err.notFitted) := by
  have hcp : ∀ x : List α, calcPerc x y = Except.error Err.degenerateTarget := by
    intro x
    unfold calcPerc
    rw [if_pos hdeg]
  constructor
  · unfold fit
    rw [hfeats]
    simp only [fitGo, hcp]
  · intro hunfit
    constructor
    · unfold transofrm
      rw [hunfit]
      rfl
    · unfold information_values
      rw [hunfit]
      rfl

theorem c5_degenerate_target_witness :
    fit (fun q => q) (init ["city"] true none "" "" : Encoder String)
      (fun _ => ["A"]) [false]
      = (init ["city"] true none "" "", some Err.degenerateTarget) ∧
    transofrm (init ["city"] true none "" "" : Encoder String) []
      = Except.error Err.notFitted ∧
    information_values (init ["city"] true none "" "" : Encoder String) false
      = Except.error Err.notFitted := by
  have h := c5_degenerate_target (fun q => q) (init ["city"] true none "" "")
    (fun _ => ["A"]) [false] "city" [] [] false rfl (Or.inl rfl)
  exact ⟨h.1, h.2 rfl⟩

/-! ### Claim C6 -/

theorem alLookup_append_left {β : Type} (m1 m2 : List (α × β)) (c : α)
    (h : c ∉ m1.map Prod.fst) : alLookup (m1 ++ m2) c = alLookup m2 c := by
  induction m1 with
  | nil => rfl
  | cons p m1 ih =>
    have hp : ¬p.1 = c := fun hh => h (by simp [hh])
    have h2 : c ∉ m1.map Prod.fst := fun hh => h (by simp [hh])
    simp only [List.cons_append, alLookup, hp, if_false]
    exact ih h2

theorem alLookup_overwrite (X : Frame α) (c : String) (col : List (Cell α))
    (h : c ∈ X.map Prod.fst) :
    alLookup (X.map fun p => if p.1 = c then (c, col) else p) c = some col := by
  induction X with
  | nil => simp at h
  | cons p X ih =>
    by_cases hp : p.1 = c
    · simp [alLookup, hp]
    · have h2 : c ∈ X.map Prod.fst := by
        rw [List.map_cons] at h
        rcases List.mem_cons.mp h with h3 | h3
        · exact absurd h3.symm hp
        · exact h3
      simp only [List.map_cons, if_neg hp, alLookup, hp, if_false]
      exact ih h2

theorem frameGet_frameSet_self (X : Frame α) (c : String)
    (col : List (Cell α)) :
    frameGet (frameSet X c col) c = some col := by
  unfold frameSet frameGet
  by_cases h : c ∈ X.map Prod.fst
  · rw [if_pos h]
    exact alLookup_overwrite X c col h
  · rw [if_neg h, alLookup_append_left X [(c, col)] c h, alLookup_cons,
      if_pos rfl]

theorem frameSet_keys_of_mem (X : Frame α) (c : String) (col : List (Cell α))
    (h : c ∈ X.map Prod.fst) :
    (frameSet X c col).map Prod.fst = X.map Prod.fst := by
  unfold frameSet
  rw [if_pos h, List.map_map]
  apply List.map_congr_left
  intro p _
  by_cases hpc : p.1 = c
  · simp [hpc]
  · simp [hpc]

theorem transofrm_never_invalid_drop (e : Encoder α) (F : Frame α) :
    transofrm e F ≠ Except.error Err.invalidDropConfiguration := by
  intro hcon
  unfold transofrm at hcon
  by_cases hf : e.is_fitted = true
  · rw [hf, if_pos rfl] at hcon
    have := transformLoop_error_kind e e.feats F Err.invalidDropConfiguration hcon
    exact absurd this (by decide)
  · have hf2 : e.is_fitted = false := by
      cases hb : e.is_fitted
      · rfl
      · exact absurd hb hf
    rw [hf2] at hcon
    injection hcon with h2
    exact absurd h2.symm (by decide)

theorem transformLoop_empty_delta (e : Encoder α)
    (hdrop : e.drop_original = true) (hpx : e.pfx = "") (hsx : e.sfx = "")
    (fs : List String) (F : Frame α)
    (hw : ∀ f ∈ fs, (alLookup e.woeTbl f).isSome = true)
    (hcols : ∀ f ∈ fs, f ∈ F.map Prod.fst) :
    ∃ F3, transformLoop e fs F = Except.ok F3 ∧
      F3.map Prod.fst = F.map Prod.fst := by
  induction fs generalizing F with
  | nil => exact ⟨F, rfl, rfl⟩
  | cons f fs ih =>
    have hfmem := hcols f (List.mem_cons_self f fs)
    obtain ⟨col, hcol⟩ :=
      Option.isSome_iff_exists.mp (alLookup_isSome_of_mem_keys hfmem)
    have hcolF : frameGet F f = some col := hcol
    obtain ⟨m, hm⟩ :=
      Option.isSome_iff_exists.mp (hw f (List.mem_cons_self f fs))
    have hnew : e.pfx ++ f ++ e.sfx = f := by rw [hpx, hsx]; simp
    have hcond : ¬(e.drop_original = true ∧ e.pfx ++ e.sfx ≠ "") := by
      rw [hpx, hsx]; simp
    have hstep : transformLoop e (f :: fs) F
        = transformLoop e fs (frameSet F f (seriesMap m e.fillna col)) := by
      simp only [transformLoop, hcolF, hm]
      rw [if_neg hcond, hnew]
    have hkeys2 : (frameSet F f (seriesMap m e.fillna col)).map Prod.fst
        = F.map Prod.fst :=
      frameSet_keys_of_mem F f _ hfmem
    obtain ⟨F3, h3, hk3⟩ := ih (frameSet F f (seriesMap m e.fillna col))
      (fun g hg => hw g (List.mem_cons_of_mem f hg))
      (fun g hg => by rw [hkeys2]; exact hcols g (List.mem_cons_of_mem f hg))
    exact ⟨F3, hstep.trans h3, hk3.trans hkeys2⟩

/-- C6 (amended): a fitted encoder with drop-original set and an empty
prefix-plus-suffix raises no error at all in `transform` — no code path
produces an invalid-drop-configuration error — and since each new column
name then equals the original feature name, the mapped values silently
overwrite the original column and the drop is skipped, leaving the set of
columns unchanged; with a single configured feature the result is exactly
the input frame with that column overwritten by the WoE-mapped values. -/
theorem c6_empty_delta_overwrites (e : Encoder α) (F : Frame α)
    (hfit : e.is_fitted = true) (hdrop : e.drop_original = true)
    (hpx : e.pfx = "") (hsx : e.sfx = "")
    (hw : ∀ f ∈ e.feats, (alLookup e.woeTbl f).isSome = true)
    (hcols : ∀ f ∈ e.feats, f ∈ F.map Prod.fst) :
    (∀ (e0 : Encoder α) (F0 : Frame α),
      transofrm e0 F0 ≠ Except.error Err.invalidDropConfiguration) ∧
    ∃ F3, transofrm e F = Except.ok F3 ∧
      F3.map Prod.fst = F.map Prod.fst ∧
      (∀ f col m, e.feats = [f] → frameGet F f = some col →
        alLookup e.woeTbl f = some m →
        F3 = frameSet F f (seriesMap m e.fillna col) ∧
        frameGet F3 f = some (seriesMap m e.fillna col)) := by
  refine ⟨fun e0 F0 => transofrm_never_invalid_drop e0 F0, ?_⟩
  obtain ⟨F3, h3, hk3⟩ :=
    transformLoop_empty_delta e hdrop hpx hsx e.feats F hw hcols
  have htr : transofrm e F = Except.ok F3 := by
    unfold transofrm
    rw [hfit, if_pos rfl]
    exact h3
  refine ⟨F3, htr, hk3, ?_⟩
  intro f col m hfs hcol hm
  have hnew : e.pfx ++ f ++ e.sfx = f := by rw [hpx, hsx]; simp
  have hcond : ¬(e.drop_original = true ∧ e.pfx ++ e.sfx ≠ "") := by
    rw [hpx, hsx]; simp
  have hone : transformLoop e [f] F
      = Except.ok (frameSet F f (seriesMap m e.fillna col)) := by
    simp only [transformLoop, hcol, hm]
    rw [if_neg hcond, hnew]
  rw [hfs] at h3
  rw [hone] at h3
  injection h3 with h4
  constructor
  · exact h4.symm
  · rw [← h4]
    exact frameGet_frameSet_self F f (seriesMap m e.fillna col)

/-- C6 counterexample: a fitted encoder with `drop_original = True` and
empty prefix and suffix.  The claim says `transform` raises an
invalid-drop-configuration error here; instead it succeeds, silently
overwriting the original column `f` with the mapped values. -/
theorem c6_counterexample :
    transofrm
      ({ feats := ["f"], drop_original := true, fillna := none, pfx := "",
         sfx := "", woeTbl := [("f", [("a", 5)])],
         ivTbl := [("f", [("a", some 5)])],
         is_fitted := true } : Encoder String)
      [("f", [Cell.cat "a"])]
      = Except.ok [("f", [Cell.num (some 5)])] :=
  rfl

theorem c6_empty_delta_overwrites_witness :
    (∃ F3 : Frame String,
      transofrm
        ({ feats := ["f"], drop_original := true, fillna := none, pfx := "",
           sfx := "", woeTbl := [("f", [("a", 5)])],
           ivTbl := [("f", [("a", some 5)])],
           is_fitted := true } : Encoder String)
        [("f", [Cell.cat "a"])] = Except.ok F3 ∧
      F3.map Prod.fst = ["f"] ∧
      frameGet F3 "f" = some (seriesMap [("a", 5)] none [Cell.cat "a"])) := by
  obtain ⟨-, F3, h1, h2, h3⟩ := c6_empty_delta_overwrites
    ({ feats := ["f"], drop_original := true, fillna := none, pfx := "",
       sfx := "", woeTbl := [("f", [("a", 5)])],
       ivTbl := [("f", [("a", some 5)])],
       is_fitted := true } : Encoder String)
    [("f", [Cell.cat "a"])] rfl rfl rfl rfl
    (by intro f hf; simp only [List.mem_singleton] at hf; subst hf; rfl)
    (by intro f hf; simp only [List.mem_singleton] at hf; subst hf; simp)
  obtain ⟨h4, h5⟩ := h3 "f" [Cell.cat "a"] [("a", 5)] rfl rfl rfl
  exact ⟨F3, h1, h2, h5⟩

/-! ### Claims C7 and C8 -/

/-- C7: the predictive-power classification scans half-open bands with
inclusive lower bounds in ascending order, first match wins (stated as the
equivalent ascending first-match conditional); in particular 0.02 is Weak,
0.1 is Medium, and 0.5 is Too good to be true. -/
theorem c7_band_boundaries (iv : ℚ) :
    addDescription iv =
      (if 0 ≤ iv ∧ iv < 0.02 then "Not useful for prediction"
       else if 0.02 ≤ iv ∧ iv < 0.1 then "Weak predictive power"
       else if 0.1 ≤ iv ∧ iv < 0.3 then "Medium predictive power"
       else if 0.3 ≤ iv ∧ iv < 0.5 then "Strong predictive power"
       else "Too good to be true!") ∧
    addDescription 0.02 = "Weak predictive power" ∧
    addDescription 0.1 = "Medium predictive power" ∧
    addDescription 0.5 = "Too good to be true!" := by
  have hmain : ∀ q : ℚ, addDescription q =
      (if 0 ≤ q ∧ q < 0.02 then "Not useful for prediction"
       else if 0.02 ≤ q ∧ q < 0.1 then "Weak predictive power"
       else if 0.1 ≤ q ∧ q < 0.3 then "Medium predictive power"
       else if 0.3 ≤ q ∧ q < 0.5 then "Strong predictive power"
       else "Too good to be true!") := by
    intro q
    simp only [addDescription, predictive_power, addDescriptionGo, inBand,
      Bool.and_eq_true, decide_eq_true_eq, ite_self]
  refine ⟨hmain iv, ?_, ?_, ?_⟩
  · rw [hmain 0.02]
    norm_num
  · rw [hmain 0.1]
    norm_num
  · rw [hmain 0.5]
    norm_num

/-- C8: an information value matched by none of the five bands (possible
only for negative values) falls through the scan and receives the fallback
label. -/
theorem c8_band_fallback (iv : ℚ)
    (h : ∀ b ∈ predictive_power, inBand iv b.1 = false) :
    addDescription iv = "Too good to be true!" := by
  have h1 := h ((0, some 0.02), "Not useful for prediction")
    (by simp [predictive_power])
  have h2 := h ((0.02, some 0.1), "Weak predictive power")
    (by simp [predictive_power])
  have h3 := h ((0.1, some 0.3), "Medium predictive power")
    (by simp [predictive_power])
  have h4 := h ((0.3, some 0.5), "Strong predictive power")
    (by simp [predictive_power])
  have h5 := h ((0.5, none), "Too good to be true!")
    (by simp [predictive_power])
  simp only [addDescription, predictive_power, addDescriptionGo,
    h1, h2, h3, h4, h5, Bool.false_eq_true, if_false]

theorem c8_band_fallback_witness :
    addDescription (-1) = "Too good to be true!" := by
  apply c8_band_fallback (-1)
  intro b hb
  simp only [predictive_power, List.mem_cons, List.not_mem_nil, or_false] at hb
  rcases hb with h | h | h | h | h <;> subst h <;>
    simp only [inBand, Bool.and_eq_false_iff, decide_eq_false_iff_not] <;>
    norm_num

/-! ### Claim C9 -/

theorem list_sum_div (l : List ℚ) (d : ℚ) :
    (l.map fun q => q / d).sum = l.sum / d := by
  induction l with
  | nil => simp
  | cons q l ih => simp [ih, add_div]

theorem eventRows_length (x : List α) (y : List Bool)
    (hlen : x.length = y.length) :
    (eventRows x y).length = y.count true := by
  unfold eventRows
  rw [List.length_map]
  induction x generalizing y with
  | nil =>
    cases y with
    | nil => rfl
    | cons b y => simp at hlen
  | cons a x ih =>
    cases y with
    | nil => simp at hlen
    | cons b y =>
      have hlen2 : x.length = y.length := by simpa using hlen
      cases b
      · simpa using ih y hlen2
      · simpa using ih y hlen2

theorem nonEventRows_length (x : List α) (y : List Bool)
    (hlen : x.length = y.length) :
    (nonEventRows x y).length = y.count false := by
  unfold nonEventRows
  rw [List.length_map]
  induction x generalizing y with
  | nil =>
    cases y with
    | nil => rfl
    | cons b y => simp at hlen
  | cons a x ih =>
    cases y with
    | nil => simp at hlen
    | cons b y =>
      have hlen2 : x.length = y.length := by simpa using hlen
      cases b
      · simpa using ih y hlen2
      · simpa using ih y hlen2

theorem propOf_sum (rows : List α) (n : ℕ) (hn : rows.length = n)
    (h0 : n ≠ 0) : ((propOf rows n).map Prod.snd).sum = 1 := by
  unfold propOf
  rw [List.map_map]
  have h1 : (Prod.snd ∘ fun c => (c, (rows.count c : ℚ) / (n : ℚ)))
      = (fun q => q / (n : ℚ)) ∘ (fun c => ((rows.count c : ℕ) : ℚ)) := rfl
  rw [h1, ← List.map_map, list_sum_div]
  have h2 : (rows.dedup.map fun c => ((rows.count c : ℕ) : ℚ))
      = (rows.dedup.map fun c => rows.count c).map (fun k : ℕ => (k : ℚ)) := by
    rw [List.map_map]
    rfl
  rw [h2, ← Nat.cast_list_sum, List.sum_map_count_dedup_eq_length, hn]
  exact div_self (Nat.cast_ne_zero.mpr h0)

theorem propOf_mem_bounds (rows : List α) (n : ℕ) (hn : rows.length = n)
    (h0 : n ≠ 0) : ∀ p ∈ propOf rows n, 0 ≤ p.2 ∧ p.2 ≤ 1 := by
  intro p hp
  unfold propOf at hp
  obtain ⟨c, _, hc2⟩ := List.mem_map.mp hp
  subst hc2
  have hnpos : (0 : ℚ) < (n : ℚ) := by
    exact_mod_cast Nat.pos_of_ne_zero h0
  constructor
  · exact div_nonneg (Nat.cast_nonneg _) (le_of_lt hnpos)
  · rw [div_le_one hnpos]
    exact_mod_cast hn ▸ List.count_le_length c rows

/-- C9: under the both-classes-present precondition the per-category event
proportions sum to 1 over the categories observed among event rows,
likewise the non-event proportions, and every proportion lies in [0, 1]. -/
theorem c9_proportion_normalization (x : List α) (y : List Bool)
    (pe pne : List (α × ℚ)) (hlen : x.length = y.length)
    (hcp : calcPerc x y = Except.ok (pe, pne)) :
    ((pe.map Prod.snd).sum = 1 ∧ (pne.map Prod.snd).sum = 1) ∧
    (∀ p ∈ pe, 0 ≤ p.2 ∧ p.2 ≤ 1) ∧ (∀ p ∈ pne, 0 ≤ p.2 ∧ p.2 ≤ 1) := by
  unfold calcPerc at hcp
  by_cases hdeg : y.count true = 0 ∨ y.count false = 0
  · rw [if_pos hdeg] at hcp
    simp at hcp
  · rw [if_neg hdeg] at hcp
    injection hcp with h1
    have hpe : pe = propOf (eventRows x y) (y.count true) :=
      (congrArg Prod.fst h1).symm
    have hpne : pne = propOf (nonEventRows x y) (y.count false) :=
      (congrArg Prod.snd h1).symm
    push_neg at hdeg
    subst hpe
    subst hpne
    refine ⟨⟨?_, ?_⟩, ?_, ?_⟩
    · exact propOf_sum _ _ (eventRows_length x y hlen) hdeg.1
    · exact propOf_sum _ _ (nonEventRows_length x y hlen) hdeg.2
    · exact propOf_mem_bounds _ _ (eventRows_length x y hlen) hdeg.1
    · exact propOf_mem_bounds _ _ (nonEventRows_length x y hlen) hdeg.2

theorem c9_proportion_normalization_witness :
    ((((propOf ["A", "A"] 2 : List (String × ℚ)).map Prod.snd).sum = 1 ∧
      ((propOf ["A", "B", "B"] 3 : List (String × ℚ)).map Prod.snd).sum = 1) ∧
    (∀ p ∈ (propOf ["A", "A"] 2 : List (String × ℚ)), 0 ≤ p.2 ∧ p.2 ≤ 1) ∧
    (∀ p ∈ (propOf ["A", "B", "B"] 3 : List (String × ℚ)),
      0 ≤ p.2 ∧ p.2 ≤ 1)) :=
  c9_proportion_normalization ["A", "A", "A", "B", "B"]
    [true, true, false, false, false]
    (propOf ["A", "A"] 2) (propOf ["A", "B", "B"] 3) rfl rfl

/-! ### Claim C10 -/

theorem frameGet_frameDrop_ne (X : Frame α) (c cd : String) (h : ¬c = cd) :
    frameGet (frameDrop X cd) c = frameGet X c := by
  unfold frameDrop frameGet
  induction X with
  | nil => rfl
  | cons p X ih =>
    rw [List.filter_cons]
    by_cases hp : p.1 = cd
    · have hq : decide (p.1 ≠ cd) = false := by simp [hp]
      rw [hq]
      have hpc : ¬p.1 = c := fun hh => h (by rw [← hh, hp])
      simp only [Bool.false_eq_true, if_false, alLookup]
      rw [if_neg hpc]
      exact ih
    · have hq : decide (p.1 ≠ cd) = true := by simp [hp]
      rw [hq]
      simp only [if_true, alLookup]
      by_cases hpc : p.1 = c
      · rw [if_pos hpc, if_pos hpc]
      · rw [if_neg hpc, if_neg hpc]
        exact ih

theorem newName_ne_of_delta_ne (px sx f : String) (h : px ++ sx ≠ "") :
    ¬px ++ f ++ sx = f := by
  intro hcon
  apply h
  have hdata := congrArg String.data hcon
  rw [String.data_append, String.data_append] at hdata
  have hlen := congrArg List.length hdata
  rw [List.length_append, List.length_append] at hlen
  have hpx : px.data.length = 0 := by omega
  have hsx : sx.data.length = 0 := by omega
  apply String.ext
  rw [String.data_append, List.eq_nil_of_length_eq_zero hpx,
    List.eq_nil_of_length_eq_zero hsx]
  rfl

theorem alLookup_overwrite_ne (X : Frame α) (n c : String)
    (col : List (Cell α)) (h : ¬n = c) :
    alLookup (X.map fun p => if p.1 = n then (n, col) else p) c
      = alLookup X c := by
  induction X with
  | nil => rfl
  | cons p X ih =>
    rw [List.map_cons]
    by_cases hpn : p.1 = n
    · rw [if_pos hpn, alLookup_cons]
      have hpc : ¬p.1 = c := by rw [hpn]; exact h
      simp only [alLookup]
      rw [if_neg h, if_neg hpc]
      exact ih
    · rw [if_neg hpn]
      simp only [alLookup]
      by_cases hpc : p.1 = c
      · rw [if_pos hpc, if_pos hpc]
      · rw [if_neg hpc, if_neg hpc]
        exact ih

theorem alLookup_append_last_ne (X : Frame α) (n c : String)
    (col : List (Cell α)) (h : ¬n = c) :
    alLookup (X ++ [(n, col)]) c = alLookup X c := by
  induction X with
  | nil =>
    show (if n = c then some col else none) = none
    rw [if_neg h]
  | cons p X ih =>
    rw [List.cons_append]
    simp only [alLookup]
    by_cases hpc : p.1 = c
    · rw [if_pos hpc, if_pos hpc]
    · rw [if_neg hpc, if_neg hpc]
      exact ih

theorem frameGet_frameSet_ne (X : Frame α) (n c : String)
    (col : List (Cell α)) (h : ¬n = c) :
    frameGet (frameSet X n col) c = frameGet X c := by
  unfold frameSet frameGet
  by_cases hmem : n ∈ X.map Prod.fst
  · rw [if_pos hmem]
    exact alLookup_overwrite_ne X n c col h
  · rw [if_neg hmem]
    exact alLookup_append_last_ne X n c col h

theorem mem_keys_frameSet (X : Frame α) (n c : String) (col : List (Cell α))
    (h : c ∈ X.map Prod.fst) : c ∈ (frameSet X n col).map Prod.fst := by
  by_cases hmem : n ∈ X.map Prod.fst
  · rw [frameSet_keys_of_mem X n col hmem]
    exact h
  · unfold frameSet
    rw [if_neg hmem, List.map_append]
    exact List.mem_append_left _ h

theorem mem_keys_frameDrop (X : Frame α) (d c : String)
    (h : c ∈ X.map Prod.fst) (hne : ¬c = d) :
    c ∈ (frameDrop X d).map Prod.fst := by
  unfold frameDrop
  obtain ⟨p, hp, hpc⟩ := List.mem_map.mp h
  refine List.mem_map.mpr ⟨p, List.mem_filter.mpr ⟨hp, ?_⟩, hpc⟩
  rw [hpc]
  simpa using hne

/-- Key membership survives one iteration of the transform loop (the
assignment never removes a column; the drop removes only the head feature's
own column). -/
theorem mem_keys_after_step (F : Frame α) (g2 g nn0 : String)
    (colv : List (Cell α)) (cond : Prop) [Decidable cond]
    (h : g2 ∈ F.map Prod.fst) (hne : ¬g2 = g) :
    g2 ∈ (if cond then frameDrop (frameSet F nn0 colv) g
          else frameSet F nn0 colv).map Prod.fst := by
  by_cases hc : cond
  · rw [if_pos hc]
    exact mem_keys_frameDrop _ g g2 (mem_keys_frameSet F nn0 g2 colv h) hne
  · rw [if_neg hc]
    exact mem_keys_frameSet F nn0 g2 colv h

/-- A column named neither like the head feature nor like its new column is
untouched by one iteration of the transform loop. -/
theorem frameGet_after_step (F : Frame α) (c g nn0 : String)
    (colv : List (Cell α)) (cond : Prop) [Decidable cond]
    (h1 : ¬nn0 = c) (h2 : ¬c = g) :
    frameGet (if cond then frameDrop (frameSet F nn0 colv) g
              else frameSet F nn0 colv) c = frameGet F c := by
  by_cases hc : cond
  · rw [if_pos hc, frameGet_frameDrop_ne _ c g h2,
      frameGet_frameSet_ne F nn0 c colv h1]
  · rw [if_neg hc, frameGet_frameSet_ne F nn0 c colv h1]

/-- The transform loop leaves every column untouched whose name is neither
a processed feature name nor one of the new column names. -/
theorem transformLoop_preserves (e : Encoder α) (c : String) :
    ∀ (fs : List String) (F F3 : Frame α),
      (∀ g ∈ fs, ¬g = c ∧ ¬e.pfx ++ g ++ e.sfx = c) →
      transformLoop e fs F = Except.ok F3 →
      frameGet F3 c = frameGet F c := by
  intro fs
  induction fs with
  | nil =>
    intro F F3 _ h
    simp only [transformLoop] at h
    injection h with h2
    rw [h2]
  | cons g fs ih =>
    intro F F3 hc h
    simp only [transformLoop] at h
    cases hcg : frameGet F g with
    | none =>
      rw [hcg] at h
      exact Except.noConfusion h
    | some colg =>
      cases hmg : alLookup e.woeTbl g with
      | none =>
        rw [hcg, hmg] at h
        exact Except.noConfusion h
      | some mg =>
        rw [hcg, hmg] at h
        have hrest := ih _ F3 (fun g2 hg2 => hc g2 (List.mem_cons_of_mem g hg2)) h
        rw [hrest]
        exact frameGet_after_step F c g (e.pfx ++ g ++ e.sfx)
          (seriesMap mg e.fillna colg) _
          ((hc g (List.mem_cons_self g fs)).2)
          (fun hh => (hc g (List.mem_cons_self g fs)).1 hh.symm)

/-- The transform loop succeeds whenever the (pairwise distinct) features
all have a fitted WoE entry and a column in the frame. -/
theorem transformLoop_progress (e : Encoder α) :
    ∀ (fs : List String) (F : Frame α), fs.Nodup →
      (∀ g ∈ fs, (alLookup e.woeTbl g).isSome = true) →
      (∀ g ∈ fs, g ∈ F.map Prod.fst) →
      ∃ F3, transformLoop e fs F = Except.ok F3 := by
  intro fs
  induction fs with
  | nil => exact fun F _ _ _ => ⟨F, rfl⟩
  | cons g fs ih =>
    intro F hnodup hw hcols
    obtain ⟨colg, hcolg0⟩ := Option.isSome_iff_exists.mp
      (alLookup_isSome_of_mem_keys (hcols g (List.mem_cons_self g fs)))
    have hcolg : frameGet F g = some colg := hcolg0
    obtain ⟨mg, hmg⟩ :=
      Option.isSome_iff_exists.mp (hw g (List.mem_cons_self g fs))
    have hstep : transformLoop e (g :: fs) F = transformLoop e fs
        (if e.drop_original = true ∧ e.pfx ++ e.sfx ≠ "" then
          frameDrop (frameSet F (e.pfx ++ g ++ e.sfx)
            (seriesMap mg e.fillna colg)) g
        else frameSet F (e.pfx ++ g ++ e.sfx) (seriesMap mg e.fillna colg)) := by
      simp only [transformLoop, hcolg, hmg]
    rw [hstep]
    refine ih _ (List.Nodup.of_cons hnodup)
      (fun g2 hg2 => hw g2 (List.mem_cons_of_mem g hg2)) ?_
    intro g2 hg2
    have hne : ¬g2 = g := fun hh =>
      (List.nodup_cons.mp hnodup).1 (hh ▸ hg2)
    exact mem_keys_after_step F g2 g _ _ _
      (hcols g2 (List.mem_cons_of_mem g hg2)) hne

/-- Two new column names built from the same prefix and suffix coincide
only for the same feature name. -/
theorem newName_inj (px sx g f : String)
    (h : px ++ g ++ sx = px ++ f ++ sx) : g = f := by
  have hd := congrArg String.data h
  rw [String.data_append, String.data_append, String.data_append,
    String.data_append] at hd
  apply String.ext
  exact List.append_cancel_left (List.append_cancel_right hd)

/-- Core of claim C10, by induction over the remaining features of the
transform loop: if the feature `f` still to be processed carries an unseen
category at row `i`, the loop succeeds and the new column for `f` holds NaN
at row `i` in the final frame. -/
theorem transformLoop_unseen_nan (e : Encoder α) (f : String)
    (m : List (α × ℚ)) (v : α) (i : ℕ)
    (hm : alLookup e.woeTbl f = some m) (hunseen : alLookup m v = none)
    (hnocoll : ∀ g1 ∈ e.feats, ∀ g2 ∈ e.feats,
      e.pfx ++ g1 ++ e.sfx = g2 → g1 = g2) :
    ∀ (fs : List String) (F : Frame α) (col : List (Cell α)),
      fs.Nodup → (∀ g ∈ fs, g ∈ e.feats) →
      (∀ g ∈ fs, (alLookup e.woeTbl g).isSome = true) →
      (∀ g ∈ fs, g ∈ F.map Prod.fst) →
      f ∈ fs → frameGet F f = some col →
      col.get? i = some (Cell.cat v) →
      ∃ F3, transformLoop e fs F = Except.ok F3 ∧
        ∃ newcol, frameGet F3 (e.pfx ++ f ++ e.sfx) = some newcol ∧
          newcol.get? i = some (Cell.num none) := by
  intro fs
  induction fs with
  | nil =>
    intro F col _ _ _ _ hf
    simp at hf
  | cons g fs ih =>
    intro F col hnodup hsub hw hcols hf hcol hv
    obtain ⟨colg, hcolg0⟩ := Option.isSome_iff_exists.mp
      (alLookup_isSome_of_mem_keys (hcols g (List.mem_cons_self g fs)))
    have hcolg : frameGet F g = some colg := hcolg0
    obtain ⟨mg, hmg⟩ :=
      Option.isSome_iff_exists.mp (hw g (List.mem_cons_self g fs))
    have hgfeat : g ∈ e.feats := hsub g (List.mem_cons_self g fs)
    have hstep : transformLoop e (g :: fs) F = transformLoop e fs
        (if e.drop_original = true ∧ e.pfx ++ e.sfx ≠ "" then
          frameDrop (frameSet F (e.pfx ++ g ++ e.sfx)
            (seriesMap mg e.fillna colg)) g
        else frameSet F (e.pfx ++ g ++ e.sfx) (seriesMap mg e.fillna colg)) := by
      simp only [transformLoop, hcolg, hmg]
    by_cases hfin : f ∈ fs
    · have hfg : ¬f = g := fun hh =>
        (List.nodup_cons.mp hnodup).1 (hh ▸ hfin)
      have hffeat : f ∈ e.feats := hsub f (List.mem_cons_of_mem g hfin)
      have hnng : ¬e.pfx ++ g ++ e.sfx = f := fun hh =>
        hfg ((hnocoll g hgfeat f hffeat hh).symm)
      have hcol2 : frameGet (if e.drop_original = true ∧ e.pfx ++ e.sfx ≠ ""
          then frameDrop (frameSet F (e.pfx ++ g ++ e.sfx)
            (seriesMap mg e.fillna colg)) g
          else frameSet F (e.pfx ++ g ++ e.sfx) (seriesMap mg e.fillna colg)) f
          = some col := by
        rw [frameGet_after_step F f g _ _ _ hnng hfg]
        exact hcol
      obtain ⟨F3, hF3, hres⟩ := ih _ col (List.Nodup.of_cons hnodup)
        (fun g2 hg2 => hsub g2 (List.mem_cons_of_mem g hg2))
        (fun g2 hg2 => hw g2 (List.mem_cons_of_mem g hg2))
        (fun g2 hg2 => mem_keys_after_step F g2 g _ _ _
          (hcols g2 (List.mem_cons_of_mem g hg2))
          (fun hh => (List.nodup_cons.mp hnodup).1 (hh ▸ hg2)))
        hfin hcol2 hv
      exact ⟨F3, hstep.trans hF3, hres⟩
    · have hfg : f = g := by
        rcases List.mem_cons.mp hf with h1 | h1
        · exact h1
        · exact absurd h1 hfin
      subst hfg
      have hcolcol : colg = col := Option.some.inj (hcolg.symm.trans hcol)
      have hmm : mg = m := Option.some.inj (hmg.symm.trans hm)
      rw [hcolcol, hmm] at hstep
      have hmapped : (seriesMap m e.fillna col).get? i
          = some (Cell.num none) := by
        unfold seriesMap
        rw [List.get?_map, hv]
        show some (Cell.num (alLookup m v)) = some (Cell.num none)
        rw [hunseen]
      have hget2 : frameGet (if e.drop_original = true ∧ e.pfx ++ e.sfx ≠ ""
          then frameDrop (frameSet F (e.pfx ++ f ++ e.sfx)
            (seriesMap m e.fillna col)) f
          else frameSet F (e.pfx ++ f ++ e.sfx) (seriesMap m e.fillna col))
          (e.pfx ++ f ++ e.sfx) = some (seriesMap m e.fillna col) := by
        by_cases hcond : e.drop_original = true ∧ e.pfx ++ e.sfx ≠ ""
        · rw [if_pos hcond, frameGet_frameDrop_ne _ _ f
            (newName_ne_of_delta_ne e.pfx e.sfx f hcond.2)]
          exact frameGet_frameSet_self F _ _
        · rw [if_neg hcond]
          exact frameGet_frameSet_self F _ _
      obtain ⟨F3, hF3⟩ := transformLoop_progress e fs
        (if e.drop_original = true ∧ e.pfx ++ e.sfx ≠ "" then
          frameDrop (frameSet F (e.pfx ++ f ++ e.sfx)
            (seriesMap m e.fillna col)) f
        else frameSet F (e.pfx ++ f ++ e.sfx) (seriesMap m e.fillna col))
        (List.Nodup.of_cons hnodup)
        (fun g2 hg2 => hw g2 (List.mem_cons_of_mem f hg2))
        (fun g2 hg2 => mem_keys_after_step F g2 f _ _ _
          (hcols g2 (List.mem_cons_of_mem f hg2))
          (fun hh => (List.nodup_cons.mp hnodup).1 (hh ▸ hg2)))
      have hkeep := transformLoop_preserves e (e.pfx ++ f ++ e.sfx) fs
        (if e.drop_original = true ∧ e.pfx ++ e.sfx ≠ "" then
          frameDrop (frameSet F (e.pfx ++ f ++ e.sfx)
            (seriesMap m e.fillna col)) f
        else frameSet F (e.pfx ++ f ++ e.sfx) (seriesMap m e.fillna col)) F3
        (fun g2 hg2 => ⟨fun hh =>
            hfin ((hnocoll f (hsub f hf) g2
              (hsub g2 (List.mem_cons_of_mem f hg2)) hh.symm) ▸ hg2),
          fun hh =>
            hfin ((newName_inj e.pfx e.sfx g2 f hh) ▸ hg2)⟩)
        hF3
      refine ⟨F3, hstep.trans hF3, seriesMap m e.fillna col, ?_, hmapped⟩
      rw [hkeep]
      exact hget2

/-- C10: for every fitted encoder and input table, a row whose category
value has no entry in the fitted WoE table is mapped to NaN in the new
column, whatever the constructor's `fillna` setting is: `fillna` is
forwarded to `Series.map` as `na_action`, which never substitutes a value
for unseen categories.  The configuration well-formedness hypotheses say
that the configured features are pairwise distinct, each has a fitted WoE
entry and a column in the frame (otherwise pandas raises `KeyError`), and a
new column name `prefix + g + suffix` coincides with a configured feature
name only in the self-collision case `g` itself (otherwise a later loop
iteration would read or drop the freshly written column — pandas would
clobber it the same way). -/
theorem c10_unseen_category_nan (e : Encoder α) (F : Frame α) (f : String)
    (m : List (α × ℚ)) (col : List (Cell α)) (v : α) (i : ℕ)
    (hfit : e.is_fitted = true) (hnodup : e.feats.Nodup)
    (hnocoll : ∀ g1 ∈ e.feats, ∀ g2 ∈ e.feats,
      e.pfx ++ g1 ++ e.sfx = g2 → g1 = g2)
    (hf : f ∈ e.feats)
    (hw : ∀ g ∈ e.feats, (alLookup e.woeTbl g).isSome = true)
    (hcols : ∀ g ∈ e.feats, g ∈ F.map Prod.fst)
    (hm : alLookup e.woeTbl f = some m) (hcol : frameGet F f = some col)
    (hv : col.get? i = some (Cell.cat v)) (hunseen : alLookup m v = none) :
    ∃ F3, transofrm e F = Except.ok F3 ∧
      ∃ newcol, frameGet F3 (e.pfx ++ f ++ e.sfx) = some newcol ∧
        newcol.get? i = some (Cell.num none) := by
  obtain ⟨F3, hF3, hres⟩ := transformLoop_unseen_nan e f m v i hm hunseen
    hnocoll e.feats F col hnodup (fun g hg => hg) hw hcols hf hcol hv
  refine ⟨F3, ?_, hres⟩
  unfold transofrm
  rw [hfit, if_pos rfl]
  exact hF3

theorem c10_unseen_category_nan_witness :
    ∃ F3 : Frame String,
      transofrm
        ({ feats := ["f", "g"], drop_original := false, fillna := some 7,
           pfx := "woe_", sfx := "",
           woeTbl := [("f", [("a", 5)]), ("g", [("a", 3)])],
           ivTbl := [("f", [("a", some 5)]), ("g", [("a", some 3)])],
           is_fitted := true } : Encoder String)
        [("f", [Cell.cat "b"]), ("g", [Cell.cat "a"])] = Except.ok F3 ∧
      ∃ newcol, frameGet F3 "woe_f" = some newcol ∧
        newcol.get? 0 = some (Cell.num none) :=
  c10_unseen_category_nan
    ({ feats := ["f", "g"], drop_original := false, fillna := some 7,
       pfx := "woe_", sfx := "",
       woeTbl := [("f", [("a", 5)]), ("g", [("a", 3)])],
       ivTbl := [("f", [("a", some 5)]), ("g", [("a", some 3)])],
       is_fitted := true } : Encoder String)
    [("f", [Cell.cat "b"]), ("g", [Cell.cat "a"])] "f" [("a", 5)]
    [Cell.cat "b"] "b" 0
    rfl (by decide) (by decide) (by decide) (by decide) (by decide)
    rfl rfl rfl rfl

end WoE
